import Mathlib

/-!
Shallow embedding of the Cyberflow particle engine
(`src/components/CyberCanvas.tsx`).  JavaScript numbers are modelled as
exact reals; each call to `Math.random()` becomes an explicit parameter
that theorems constrain to `[0, 1)`.  The text sampler's scan loop is
modelled over the rationals so that it stays executable.
-/

namespace Cyberflow

/-- Visual styles, from `types.ts`: `'network' | 'bokeh' | 'matrix' | 'vortex' | 'nova'`. -/
inductive VisualStyle where
  | network
  | bokeh
  | matrix
  | vortex
  | nova
deriving DecidableEq, Repr, BEq

open VisualStyle

/-- Particle state, from the field declarations of `class Particle`
(`CyberCanvas.tsx` lines 15-29).  `targetX`/`targetY` are the nullable
morph-target fields. -/
structure Particle where
  x : ℝ
  y : ℝ
  z : ℝ
  vx : ℝ
  vy : ℝ
  size : ℝ
  angle : ℝ
  radius : ℝ
  targetX : Option ℝ
  targetY : Option ℝ

/-- The random draws consumed by the `Particle` constructor, in source
order: position x, position y, depth z, size, the velocity direction
draw, the two per-style velocity draws, and the two bokeh override
draws. -/
structure Rnd where
  rx : ℝ
  ry : ℝ
  rz : ℝ
  rs : ℝ
  rdir : ℝ
  rv1 : ℝ
  rv2 : ℝ
  rbs : ℝ
  rbz : ℝ

/-- Every field of an `Rnd` lies in `[0, 1)`, the range of `Math.random()`. -/
def Rnd.valid (r : Rnd) : Prop :=
  0 ≤ r.rx ∧ r.rx < 1 ∧ 0 ≤ r.ry ∧ r.ry < 1 ∧ 0 ≤ r.rz ∧ r.rz < 1 ∧
  0 ≤ r.rs ∧ r.rs < 1 ∧ 0 ≤ r.rdir ∧ r.rdir < 1 ∧ 0 ≤ r.rv1 ∧ r.rv1 < 1 ∧
  0 ≤ r.rv2 ∧ r.rv2 < 1 ∧ 0 ≤ r.rbs ∧ r.rbs < 1 ∧ 0 ≤ r.rbz ∧ r.rbz < 1

/-- Two-argument arctangent, the embedding of `Math.atan2(dy, dx)` used
by the constructor's vortex initialisation. -/
noncomputable def atan2 (y x : ℝ) : ℝ :=
  if 0 < x then Real.arctan (y / x)
  else if x < 0 ∧ 0 ≤ y then Real.arctan (y / x) + Real.pi
  else if x < 0 then Real.arctan (y / x) - Real.pi
  else if 0 < y then Real.pi / 2
  else if y < 0 then -(Real.pi / 2)
  else 0

/-- Embedding of `Particle.resetVelocity` (lines 57-75): one direction
draw, then style-specific velocity assignment; styles with no branch
(vortex) leave the velocity untouched. -/
noncomputable def resetVelocity (style : VisualStyle) (rdir rv1 rv2 : ℝ)
    (p : Particle) : Particle :=
  let direction : ℝ := if rdir > 0.5 then 1 else -1
  if style = network then
    { p with vx := (rv1 * 0.5 + 0.1) * direction, vy := (rv2 * 0.5 + 0.1) * direction }
  else if style = bokeh then
    { p with vx := rv1 * 0.2 - 0.1, vy := rv2 * (-0.5) - 0.2 }
  else if style = matrix then
    { p with vx := 0, vy := rv1 * 5 + 2 }
  else if style = nova then
    { p with vx := rv1 * 2 - 1, vy := rv2 * 2 - 1 }
  else p

/-- Embedding of the `Particle` constructor (lines 31-55): random
position, depth and size, polar decomposition for the vortex state,
velocity initialisation, then the bokeh size/depth overrides. -/
noncomputable def mkParticle (width height : ℝ) (style : VisualStyle) (r : Rnd) : Particle :=
  let x := r.rx * width
  let y := r.ry * height
  let dx := x - width / 2
  let dy := y - height / 2
  let base : Particle :=
    { x := x, y := y, z := r.rz * 2 + 0.5, vx := 0, vy := 0,
      size := r.rs * 2 + 0.5, angle := atan2 dy dx,
      radius := Real.sqrt (dx * dx + dy * dy), targetX := none, targetY := none }
  let p := resetVelocity style r.rdir r.rv1 r.rv2 base
  if style = bokeh then
    { p with size := r.rbs * 15 + 5, z := r.rbz * 1.5 + 0.5 }
  else p

/-- The guarded centre distance of the nova branch, embedding
`Math.sqrt(dx*dx + dy*dy) || 1` (line 112): a zero distance is replaced
by 1, guarding the following division. -/
noncomputable def novaDist (p : Particle) (width height : ℝ) : ℝ :=
  let dx := p.x - width / 2
  let dy := p.y - height / 2
  let d := Real.sqrt (dx * dx + dy * dy)
  if d = 0 then 1 else d

/-- Morph branch of `Particle.update` (lines 81-99): ease towards the
target, add jitter scaled by `scaleRatio`, pull z towards 1, and skip
the standard physics. -/
noncomputable def updateMorph (eff scale j1 j2 tx ty : ℝ) (p : Particle) : Particle :=
  let dx := tx - p.x
  let dy := ty - p.y
  { p with
    x := p.x + dx * 0.05 * eff + (j1 - 0.5) * 0.5 * scale,
    y := p.y + dy * 0.05 * eff + (j2 - 0.5) * 0.5 * scale,
    z := p.z + (1 - p.z) * 0.05 }

/-- Vortex branch of `Particle.update` (lines 103-107). -/
noncomputable def updateVortex (width height eff : ℝ) (p : Particle) : Particle :=
  let a := p.angle + 0.005 * eff / p.z
  { p with angle := a,
           x := width / 2 + Real.cos a * p.radius,
           y := height / 2 + Real.sin a * p.radius }

/-- Nova branch of `Particle.update` (lines 108-124): outward unit
vector times 2, translate, and reset near the centre when leaving a
100-pixel margin (the reset consumes the two random draws). -/
noncomputable def updateNova (width height eff j1 j2 : ℝ) (p : Particle) : Particle :=
  let dx := p.x - width / 2
  let dy := p.y - height / 2
  let dist := novaDist p width height
  let vx := dx / dist * 2
  let vy := dy / dist * 2
  let x1 := p.x + vx * eff
  let y1 := p.y + vy * eff
  if x1 < -100 ∨ x1 > width + 100 ∨ y1 < -100 ∨ y1 > height + 100 then
    { p with vx := vx, vy := vy,
             x := width / 2 + (j1 * 20 - 10), y := height / 2 + (j2 * 20 - 10) }
  else
    { p with vx := vx, vy := vy, x := x1, y := y1 }

/-- Linear branch of `Particle.update` (lines 125-144): translate by
velocity, then the sequential wrap checks, with the style-dependent
vertical wrap rule. -/
noncomputable def updateLinear (width height eff : ℝ) (style : VisualStyle)
    (p : Particle) : Particle :=
  let x1 := p.x + p.vx * eff
  let y1 := p.y + p.vy * eff
  let x2 := if x1 < -50 then width + 50 else x1
  let x3 := if x2 > width + 50 then -50 else x2
  let y2 :=
    if style = bokeh then (if y1 < -50 then height + 50 else y1)
    else if style = matrix then (if y1 > height + 50 then -50 else y1)
    else
      let ya := if y1 < -50 then height + 50 else y1
      if ya > height + 50 then -50 else ya
  { p with x := x3, y := y2 }

/-- Embedding of `Particle.update` (lines 77-145): the morph override
fires when both targets are non-null; otherwise the style branch runs.
`j1`/`j2` are the tick's two random draws (morph jitter or nova reset). -/
noncomputable def update (width height speed scale : ℝ) (style : VisualStyle)
    (j1 j2 : ℝ) (p : Particle) : Particle :=
  let eff := speed * scale
  match p.targetX, p.targetY with
  | some tx, some ty => updateMorph eff scale j1 j2 tx ty p
  | _, _ =>
    if style = vortex then updateVortex width height eff p
    else if style = nova then updateNova width height eff j1 j2 p
    else updateLinear width height eff style p

/-- Per-tick target assignment on one particle, from the `animate` loop
(lines 390-410): either both targets are set or both are cleared. -/
def setTarget (tgt : Option (ℝ × ℝ)) (p : Particle) : Particle :=
  match tgt with
  | some ab => { p with targetX := some ab.1, targetY := some ab.2 }
  | none => { p with targetX := none, targetY := none }

/-- One animation tick for one particle: target assignment followed by
`update`, as in `animate` (lines 390-412). -/
noncomputable def tick (width height speed scale : ℝ) (style : VisualStyle)
    (tgt : Option (ℝ × ℝ)) (j : ℝ × ℝ) (p : Particle) : Particle :=
  update width height speed scale style j.1 j.2 (setTarget tgt p)

/-- Iterated ticks, with per-tick target assignments `tgts` and random
draws `js`. -/
noncomputable def ticks (width height speed scale : ℝ) (style : VisualStyle)
    (tgts : ℕ → Option (ℝ × ℝ)) (js : ℕ → ℝ × ℝ) : ℕ → Particle → Particle
  | 0, p => p
  | n + 1, p => ticks width height speed scale style tgts js n
      (tick width height speed scale style (tgts n) (js n) p)

/-- Resolution scale factor, `canvas.width / 1920` (line 366). -/
noncomputable def scaleOf (width : ℝ) : ℝ := width / 1920

/-- Embedding of `initParticles` (lines 192-216), polymorphic in the
particle type; `mk i` is the particle built by the `i`-th `new
Particle(...)` call.  Grows by appending, shrinks by truncating, then
runs the first-load loop when the array is still empty. -/
def initParticles {α : Type} (mk : ℕ → α) (cur : List α) (target : ℕ) : List α :=
  let cur1 :=
    if cur.length < target then
      cur ++ (List.range' cur.length (target - cur.length)).map mk
    else if target < cur.length then cur.take target
    else cur
  if cur1.length = 0 then (List.range target).map mk else cur1

/-- The pre-scaled connection distance, `config.connectionDistance *
scaleRatio` (line 367). -/
def effConnDist (connectionDistance scale : ℝ) : ℝ := connectionDistance * scale

/-- The per-frame distance limit (lines 429-430): the effective
connection distance, times 0.6 when the morph text is non-empty. -/
def distLimitOf (connectionDistance scale : ℝ) (text : String) : ℝ :=
  if text = "" then effConnDist connectionDistance scale
  else effConnDist connectionDistance scale * 0.6

/-- Edge decision for one ordered pair from the connection loop (lines
421-447): skip when the lower-indexed particle `a` is deep
(`a.z > 1.8`), apply the bounding-box pre-filter, then compare the
Euclidean distance with the limit; the payload is the code's `opacity`
variable `1 - distance / distLimit`. -/
noncomputable def pairEdge (a b : Particle) (limit : ℝ) : Option ℝ :=
  if a.z > 1.8 then none
  else
    let dx := a.x - b.x
    let dy := a.y - b.y
    if |dx| > limit ∨ |dy| > limit then none
    else
      let distance := Real.sqrt (dx * dx + dy * dy)
      if distance < limit then some (1 - distance / limit) else none

/-- Stroke alpha of a drawn edge, `opacity * 0.25` (line 442). -/
def strokeAlpha (opacity : ℝ) : ℝ := opacity * 0.25

/-- Guard of the connection pass (line 418): connections run when the
style is network or the morph text is non-empty. -/
def connectionsEnabled (style : VisualStyle) (text : String) : Bool :=
  style == network || !(text == "")

/-- The text-point set published by the text-processing effect, given
the sampler's output `sampled` (lines 219-296): a falsy (empty) text
publishes the empty set. -/
def textPointsFor (text : String) (sampled : List (ℝ × ℝ)) : List (ℝ × ℝ) :=
  if text = "" then [] else sampled

/-- Per-particle morph-target choice of the `animate` loop (lines
394-410): with a non-empty point set, particles whose index is not a
multiple of 5 take the next text point (cyclically); all others are
background and their targets are cleared. -/
def targetFor (tps : List (ℝ × ℝ)) (i tIdx : ℕ) : Option (ℝ × ℝ) :=
  if 0 < tps.length ∧ i % 5 ≠ 0 then some (tps.getD (tIdx % tps.length) (0, 0))
  else none

/-- Raster width of the text scan, `scanWidth = 800` (line 231). -/
def scanWidth : ℕ := 800

/-- Output aspect computed by `processText`, `resolution.width /
resolution.height` (line 233). -/
def aspectOf (width height : ℚ) : ℚ := width / height

/-- Raster height of the text scan, `scanWidth / aspectRatio` (line 234). -/
def scanHeightOf (width height : ℚ) : ℚ := (scanWidth : ℚ) / aspectOf width height

/-- Auto-scaled font size (lines 245-256): start at 250 and shrink by
`floor(250 * (maxWidth / measured))` when the measured text width
exceeds `maxWidth = 800 - 2 * 50`. -/
def fontSizeFor (measured : ℚ) : ℚ :=
  if measured > 700 then (Nat.floor (250 * (700 / measured)) : ℚ) else 250

/-- Sampling gap, `max(2, floor(fontSize / 40))` (line 270). -/
def gapFor (fontSize : ℚ) : ℕ := max 2 (Nat.floor (fontSize / 40))

/-- The scan loop of `processText` (lines 272-283): walk the raster
grid with step `gap`, keep cells whose alpha channel
`data[(y * scanW + x) * 4 + 3]` exceeds 128, and map each kept cell
linearly into output space.  `data` abstracts the `getImageData`
byte array. -/
def processTextPoints (data : ℕ → ℕ) (scanW : ℕ) (scanH : ℚ) (gap : ℕ)
    (outW outH : ℚ) : List (ℚ × ℚ) :=
  (List.range (Nat.ceil (scanH / (gap : ℚ)))).flatMap fun ky =>
    (List.range (Nat.ceil ((scanW : ℚ) / (gap : ℚ)))).filterMap fun kx =>
      let y := ky * gap
      let x := kx * gap
      if data ((y * scanW + x) * 4 + 3) > 128 then
        some (((x : ℚ) / (scanW : ℚ)) * outW, ((y : ℚ) / scanH) * outH)
      else none

/-- Modelled from the spec: the browser's raster of the string "AB"
(bold 250px, centred on the 800x450 scan canvas) is not in `src/`; the
spec asserts that sampling "AB" yields a non-empty sequence, so we model
the raster by one fully opaque pixel at the grid-aligned scan cell
(402, 222), a point inside the glyph area near the canvas centre. -/
def abImageData : ℕ → ℕ := fun idx => if idx = ((222 * 800 + 402) * 4 + 3) then 255 else 0

/-- Modelled from the spec: the measured width of "AB" at bold 250px is
below the 700-pixel budget, so no font shrinking occurs. -/
def abMeasuredWidth : ℚ := 330

/-- The point list sampled for "AB" at 1920x1080: scan canvas 800x450,
font size 250, gap 6. -/
def abPoints : List (ℚ × ℚ) :=
  processTextPoints abImageData scanWidth (scanHeightOf 1920 1080)
    (gapFor (fontSizeFor abMeasuredWidth)) 1920 1080

/-- A particle on the horizontal axis with the given x coordinate and
depth, the configuration of the spec's connection-eligibility test. -/
def axisParticle (x z : ℝ) : Particle :=
  { x := x, y := 0, z := z, vx := 0, vy := 0, size := 1, angle := 0, radius := 0,
    targetX := none, targetY := none }

/-- Concrete matrix particle (vy = 2, as produced by `resetVelocity`
with rv1 = 0) used for the degenerate-height counterexample. -/
def cexMatrix : Particle :=
  { x := 0, y := 0, z := 1, vx := 0, vy := 2, size := 1, angle := 0, radius := 0,
    targetX := none, targetY := none }

/-! ## Helper lemmas -/

theorem resetVelocity_z (style : VisualStyle) (rdir rv1 rv2 : ℝ) (p : Particle) :
    (resetVelocity style rdir rv1 rv2 p).z = p.z := by
  unfold resetVelocity
  split_ifs <;> rfl

theorem mkParticle_z (w h : ℝ) (style : VisualStyle) (r : Rnd) :
    (mkParticle w h style r).z =
      if style = bokeh then r.rbz * 1.5 + 0.5 else r.rz * 2 + 0.5 := by
  unfold mkParticle
  split_ifs with hb
  · rfl
  · simp [resetVelocity_z]

theorem setTarget_z (t : Option (ℝ × ℝ)) (p : Particle) :
    (setTarget t p).z = p.z := by
  cases t <;> rfl

theorem updateVortex_z (w h eff : ℝ) (p : Particle) :
    (updateVortex w h eff p).z = p.z := rfl

theorem updateNova_z (w h eff j1 j2 : ℝ) (p : Particle) :
    (updateNova w h eff j1 j2 p).z = p.z := by
  simp only [updateNova, apply_ite Particle.z, ite_self]

theorem updateLinear_z (w h eff : ℝ) (style : VisualStyle) (p : Particle) :
    (updateLinear w h eff style p).z = p.z := rfl

theorem update_z (w h speed scale : ℝ) (style : VisualStyle) (j1 j2 : ℝ)
    (q : Particle) :
    (update w h speed scale style j1 j2 q).z = q.z ∨
    (update w h speed scale style j1 j2 q).z = q.z + (1 - q.z) * 0.05 := by
  obtain ⟨x, y, z, vx, vy, size, angle, radius, tX, tY⟩ := q
  cases tX <;> cases tY
  case none.none =>
    left
    dsimp only [update]
    split_ifs <;> simp [updateVortex_z, updateNova_z, updateLinear_z]
  case none.some =>
    left
    dsimp only [update]
    split_ifs <;> simp [updateVortex_z, updateNova_z, updateLinear_z]
  case some.none =>
    left
    dsimp only [update]
    split_ifs <;> simp [updateVortex_z, updateNova_z, updateLinear_z]
  case some.some =>
    right
    rfl

theorem update_z_pos (w h speed scale : ℝ) (style : VisualStyle) (j1 j2 : ℝ)
    (q : Particle) (hq : 0 < q.z) :
    0 < (update w h speed scale style j1 j2 q).z := by
  rcases update_z w h speed scale style j1 j2 q with h' | h' <;> rw [h'] <;> linarith

theorem tick_z_pos (w h speed scale : ℝ) (style : VisualStyle)
    (tgt : Option (ℝ × ℝ)) (j : ℝ × ℝ) (p : Particle) (hp : 0 < p.z) :
    0 < (tick w h speed scale style tgt j p).z :=
  update_z_pos w h speed scale style j.1 j.2 _ (by rw [setTarget_z]; exact hp)

theorem ticks_z_pos (w h speed scale : ℝ) (style : VisualStyle)
    (tgts : ℕ → Option (ℝ × ℝ)) (js : ℕ → ℝ × ℝ) :
    ∀ (n : ℕ) (p : Particle), 0 < p.z →
      0 < (ticks w h speed scale style tgts js n p).z := by
  intro n
  induction n with
  | zero => intro p hp; exact hp
  | succ k ih =>
    intro p hp
    exact ih _ (tick_z_pos w h speed scale style (tgts k) (js k) p hp)

/-! ## Claim theorems -/

/-- C1: after `initParticles` with target count N the collection has
exactly N elements for every non-negative N; growth appends and keeps
the pre-existing prefix unchanged, shrinking truncates to the first N,
and an equal count leaves the collection unchanged. -/
theorem initParticles_reconcile {α : Type} (mk : ℕ → α) (cur : List α) (N : ℕ) :
    (initParticles mk cur N).length = N ∧
    (cur.length < N → (initParticles mk cur N).take cur.length = cur) ∧
    (N < cur.length → initParticles mk cur N = cur.take N) ∧
    (cur.length = N → initParticles mk cur N = cur) := by
  by_cases hlt : cur.length < N
  · have hlen : (cur ++ (List.range' cur.length (N - cur.length)).map mk).length = N := by
      simp [List.length_range']
      omega
    have hne : ¬ (cur ++ (List.range' cur.length (N - cur.length)).map mk).length = 0 := by
      rw [hlen]; omega
    simp only [initParticles, if_pos hlt, if_neg hne]
    exact ⟨hlen, fun _ => List.take_left cur _, fun hgt => absurd hgt (by omega),
      fun heq => absurd heq (by omega)⟩
  · by_cases hgt : N < cur.length
    · by_cases hz : N = 0
      · subst hz
        simp [initParticles, hlt, hgt]
      · have hne : ¬ (cur.take N).length = 0 := by
          rw [List.length_take]; omega
        simp only [initParticles, if_neg hlt, if_pos hgt, if_neg hne]
        refine ⟨by rw [List.length_take]; omega, fun habs => absurd habs (by omega),
          fun _ => trivial, fun heq => absurd heq (by omega)⟩
    · have heq : cur.length = N := by omega
      by_cases hz : cur.length = 0
      · have hc : cur = [] := List.length_eq_zero.mp hz
        subst hc
        simp_all [initParticles]
      · simp only [initParticles, if_neg hlt, if_neg hgt, if_neg hz]
        exact ⟨heq, fun habs => absurd habs (by omega), fun habs => absurd habs (by omega),
          fun _ => trivial⟩

/-- Witness for C1 at concrete inputs: growth from 2 to 4 keeps the
prefix, shrinking from 3 to 2 truncates, count 2 to 2 is a no-op. -/
theorem initParticles_reconcile_witness :
    (initParticles (fun i => i) [5, 6] 4).length = 4 ∧
    (initParticles (fun i => i) [5, 6] 4).take 2 = [5, 6] ∧
    initParticles (fun i => i) [7, 8, 9] 2 = [7, 8] ∧
    initParticles (fun i => i) [1, 2] 2 = [1, 2] := by
  refine ⟨(initParticles_reconcile (fun i => i) [5, 6] 4).1,
    (initParticles_reconcile (fun i => i) [5, 6] 4).2.1 (by decide),
    by simpa using (initParticles_reconcile (fun i => i) [7, 8, 9] 2).2.2.1 (by decide),
    (initParticles_reconcile (fun i => i) [1, 2] 2).2.2.2 (by decide)⟩

/-- C2: depth is strictly positive at construction and lies in
[0.5, 2.0] for bokeh and [0.5, 2.5] for the other styles; every update
step (all style branches and the morph override) preserves z > 0, so z
stays positive over any number of ticks. -/
theorem depth_invariant (w h speed scale : ℝ) (style : VisualStyle) (r : Rnd)
    (hr : r.valid) (tgts : ℕ → Option (ℝ × ℝ)) (js : ℕ → ℝ × ℝ) (n : ℕ) :
    0 < (mkParticle w h style r).z ∧
    (style = bokeh → 0.5 ≤ (mkParticle w h style r).z ∧ (mkParticle w h style r).z ≤ 2) ∧
    (style ≠ bokeh → 0.5 ≤ (mkParticle w h style r).z ∧ (mkParticle w h style r).z ≤ 2.5) ∧
    (∀ (q : Particle) (j1 j2 : ℝ), 0 < q.z →
      0 < (update w h speed scale style j1 j2 q).z) ∧
    0 < (ticks w h speed scale style tgts js n (mkParticle w h style r)).z := by
  obtain ⟨-, -, -, -, h5, h6, -, -, -, -, -, -, -, -, -, -, h17, h18⟩ := hr
  have hz := mkParticle_z w h style r
  have hpos : 0 < (mkParticle w h style r).z := by
    rw [hz]; split_ifs <;> linarith
  refine ⟨hpos, ?_, ?_, fun q j1 j2 hq => update_z_pos w h speed scale style j1 j2 q hq,
    ticks_z_pos w h speed scale style tgts js n _ hpos⟩
  · intro hb
    rw [hz, if_pos hb]
    constructor <;> linarith
  · intro hb
    rw [hz, if_neg hb]
    constructor <;> linarith

/-- Witness for C2: a concrete network particle built from the random
draw 1/2 everywhere keeps a positive depth over three ticks. -/
theorem depth_invariant_witness :
    0 < (mkParticle 100 100 VisualStyle.network
      ⟨1/2, 1/2, 1/2, 1/2, 1/2, 1/2, 1/2, 1/2, 1/2⟩).z ∧
    0 < (ticks 100 100 1 1 VisualStyle.network (fun _ => none) (fun _ => (0, 0)) 3
      (mkParticle 100 100 VisualStyle.network
        ⟨1/2, 1/2, 1/2, 1/2, 1/2, 1/2, 1/2, 1/2, 1/2⟩)).z := by
  have hv : (Rnd.mk (1/2) (1/2) (1/2) (1/2) (1/2) (1/2) (1/2) (1/2) (1/2)).valid := by
    unfold Rnd.valid
    norm_num
  exact ⟨(depth_invariant 100 100 1 1 VisualStyle.network _ hv
      (fun _ => none) (fun _ => (0, 0)) 3).1,
    (depth_invariant 100 100 1 1 VisualStyle.network _ hv
      (fun _ => none) (fun _ => (0, 0)) 3).2.2.2.2⟩

/-- C10: a freshly constructed network particle takes one direction
draw and applies it to both axes, so vx and vy are both strictly
positive or both strictly negative, each with magnitude in [0.1, 0.6]. -/
theorem network_velocity_sign (rdir rv1 rv2 : ℝ) (p : Particle)
    (hd0 : 0 ≤ rdir) (hd1 : rdir < 1) (h10 : 0 ≤ rv1) (h11 : rv1 < 1)
    (h20 : 0 ≤ rv2) (h21 : rv2 < 1) :
    (0.1 ≤ |(resetVelocity VisualStyle.network rdir rv1 rv2 p).vx| ∧
      |(resetVelocity VisualStyle.network rdir rv1 rv2 p).vx| ≤ 0.6) ∧
    (0.1 ≤ |(resetVelocity VisualStyle.network rdir rv1 rv2 p).vy| ∧
      |(resetVelocity VisualStyle.network rdir rv1 rv2 p).vy| ≤ 0.6) ∧
    ((0 < (resetVelocity VisualStyle.network rdir rv1 rv2 p).vx ∧
      0 < (resetVelocity VisualStyle.network rdir rv1 rv2 p).vy) ∨
     ((resetVelocity VisualStyle.network rdir rv1 rv2 p).vx < 0 ∧
      (resetVelocity VisualStyle.network rdir rv1 rv2 p).vy < 0)) := by
  have hvx : (resetVelocity VisualStyle.network rdir rv1 rv2 p).vx =
      (rv1 * 0.5 + 0.1) * (if rdir > 0.5 then (1 : ℝ) else -1) := by
    simp [resetVelocity]
  have hvy : (resetVelocity VisualStyle.network rdir rv1 rv2 p).vy =
      (rv2 * 0.5 + 0.1) * (if rdir > 0.5 then (1 : ℝ) else -1) := by
    simp [resetVelocity]
  rw [hvx, hvy]
  by_cases hdir : rdir > 0.5
  · rw [if_pos hdir]
    rw [mul_one, mul_one, abs_of_pos (by linarith), abs_of_pos (by linarith)]
    exact ⟨⟨by linarith, by linarith⟩, ⟨by linarith, by linarith⟩,
      Or.inl ⟨by linarith, by linarith⟩⟩
  · rw [if_neg hdir]
    rw [mul_neg_one, mul_neg_one, abs_neg, abs_neg,
      abs_of_pos (show (0 : ℝ) < rv1 * 0.5 + 0.1 by linarith),
      abs_of_pos (show (0 : ℝ) < rv2 * 0.5 + 0.1 by linarith)]
    exact ⟨⟨by linarith, by linarith⟩, ⟨by linarith, by linarith⟩,
      Or.inr ⟨by linarith, by linarith⟩⟩

/-- Witness for C10: direction draw 0.7 gives positive velocities on
both axes with magnitudes in range. -/
theorem network_velocity_sign_witness :
    0.1 ≤ |(resetVelocity VisualStyle.network 0.7 0.3 0.4
      { x := 0, y := 0, z := 1, vx := 0, vy := 0, size := 1, angle := 0, radius := 0,
        targetX := none, targetY := none }).vx| := by
  exact (network_velocity_sign 0.7 0.3 0.4 _
    (by norm_num) (by norm_num) (by norm_num) (by norm_num) (by norm_num)
    (by norm_num)).1.1

theorem update_of_targetX_none (w h speed scale : ℝ) (style : VisualStyle)
    (j1 j2 : ℝ) (p : Particle) (htx : p.targetX = none) :
    update w h speed scale style j1 j2 p =
      (if style = vortex then updateVortex w h (speed * scale) p
       else if style = nova then updateNova w h (speed * scale) j1 j2 p
       else updateLinear w h (speed * scale) style p) := by
  obtain ⟨x, y, z, vx, vy, size, angle, radius, tX, tY⟩ := p
  simp only at htx
  subst htx
  cases tY <;> rfl

theorem update_of_targets_some (w h speed scale : ℝ) (style : VisualStyle)
    (j1 j2 tx ty : ℝ) (p : Particle) (htx : p.targetX = some tx)
    (hty : p.targetY = some ty) :
    update w h speed scale style j1 j2 p =
      updateMorph (speed * scale) scale j1 j2 tx ty p := by
  obtain ⟨x, y, z, vx, vy, size, angle, radius, tX, tY⟩ := p
  simp only at htx hty
  subst htx
  subst hty
  rfl

theorem updateNova_targetX (w h eff j1 j2 : ℝ) (p : Particle) :
    (updateNova w h eff j1 j2 p).targetX = p.targetX := by
  simp only [updateNova, apply_ite Particle.targetX, ite_self]

theorem updateNova_targetY (w h eff j1 j2 : ℝ) (p : Particle) :
    (updateNova w h eff j1 j2 p).targetY = p.targetY := by
  simp only [updateNova, apply_ite Particle.targetY, ite_self]

theorem update_targetX (w h speed scale : ℝ) (style : VisualStyle)
    (j1 j2 : ℝ) (p : Particle) :
    (update w h speed scale style j1 j2 p).targetX = p.targetX := by
  obtain ⟨x, y, z, vx, vy, size, angle, radius, tX, tY⟩ := p
  cases tX <;> cases tY <;> dsimp only [update] <;>
    first
      | rfl
      | (split_ifs <;> first | rfl | apply updateNova_targetX)

theorem update_targetY (w h speed scale : ℝ) (style : VisualStyle)
    (j1 j2 : ℝ) (p : Particle) :
    (update w h speed scale style j1 j2 p).targetY = p.targetY := by
  obtain ⟨x, y, z, vx, vy, size, angle, radius, tX, tY⟩ := p
  cases tX <;> cases tY <;> dsimp only [update] <;>
    first
      | rfl
      | (split_ifs <;> first | rfl | apply updateNova_targetY)

theorem setTarget_none_targetX (p : Particle) : (setTarget none p).targetX = none := rfl

theorem setTarget_none_targetY (p : Particle) : (setTarget none p).targetY = none := rfl

/-- C5: absent a morph target, a vortex particle's stored radius is
unchanged by the per-tick update, its angle is non-decreasing (speed
multiplier positive, depth positive, non-negative surface width), and
its updated position lies at exactly that radius from the surface
centre. -/
theorem vortex_invariant (w h speed j1 j2 : ℝ) (p : Particle)
    (hw : 0 ≤ w) (hs : 0 < speed) (hz : 0 < p.z)
    (htx : p.targetX = none) (hty : p.targetY = none) :
    (update w h speed (scaleOf w) VisualStyle.vortex j1 j2 p).radius = p.radius ∧
    p.angle ≤ (update w h speed (scaleOf w) VisualStyle.vortex j1 j2 p).angle ∧
    ((update w h speed (scaleOf w) VisualStyle.vortex j1 j2 p).x - w / 2) *
        ((update w h speed (scaleOf w) VisualStyle.vortex j1 j2 p).x - w / 2) +
      ((update w h speed (scaleOf w) VisualStyle.vortex j1 j2 p).y - h / 2) *
        ((update w h speed (scaleOf w) VisualStyle.vortex j1 j2 p).y - h / 2) =
      p.radius * p.radius := by
  rw [update_of_targetX_none w h speed (scaleOf w) VisualStyle.vortex j1 j2 p htx,
    if_pos rfl]
  have heff : 0 ≤ 0.005 * (speed * scaleOf w) / p.z := by
    apply div_nonneg _ (le_of_lt hz)
    have : 0 ≤ speed * scaleOf w := by
      apply mul_nonneg (le_of_lt hs)
      unfold scaleOf
      positivity
    linarith
  refine ⟨rfl, ?_, ?_⟩
  · show p.angle ≤ p.angle + 0.005 * (speed * scaleOf w) / p.z
    linarith
  · show (w / 2 + Real.cos _ * p.radius - w / 2) * (w / 2 + Real.cos _ * p.radius - w / 2) +
      (h / 2 + Real.sin _ * p.radius - h / 2) * (h / 2 + Real.sin _ * p.radius - h / 2) =
      p.radius * p.radius
    have hpy := Real.sin_sq_add_cos_sq (p.angle + 0.005 * (speed * scaleOf w) / p.z)
    nlinarith [hpy]

/-- Witness for C5 at a concrete vortex particle with radius 5. -/
theorem vortex_invariant_witness :
    (update 1920 1080 1 (scaleOf 1920) VisualStyle.vortex 0 0
      { x := 965, y := 540, z := 1, vx := 0, vy := 0, size := 1, angle := 0, radius := 5,
        targetX := none, targetY := none }).radius = 5 := by
  exact (vortex_invariant 1920 1080 1 0 0
    { x := 965, y := 540, z := 1, vx := 0, vy := 0, size := 1, angle := 0, radius := 5,
      targetX := none, targetY := none }
    (by norm_num) (by norm_num) (by norm_num) rfl rfl).1

/-- C7: an empty text publishes an empty point set, the per-tick target
choice then clears every particle's morph target (both components are
null after the tick), and the connection pass runs exactly when the
style is network. -/
theorem empty_text_no_morph (sampled : List (ℝ × ℝ)) (i tIdx : ℕ)
    (w h speed scale : ℝ) (style : VisualStyle) (j : ℝ × ℝ) (p : Particle) :
    textPointsFor "" sampled = [] ∧
    targetFor (textPointsFor "" sampled) i tIdx = none ∧
    (tick w h speed scale style (targetFor (textPointsFor "" sampled) i tIdx) j p).targetX
      = none ∧
    (tick w h speed scale style (targetFor (textPointsFor "" sampled) i tIdx) j p).targetY
      = none ∧
    (connectionsEnabled style "" = true ↔ style = VisualStyle.network) := by
  have h1 : textPointsFor "" sampled = [] := by simp [textPointsFor]
  have h2 : targetFor (textPointsFor "" sampled) i tIdx = none := by
    rw [h1]
    simp [targetFor]
  refine ⟨h1, h2, ?_, ?_, ?_⟩
  · rw [h2]
    unfold tick
    rw [update_targetX, setTarget_none_targetX]
  · rw [h2]
    unfold tick
    rw [update_targetY, setTarget_none_targetY]
  · cases style <;> simp [connectionsEnabled] <;> decide

theorem mkParticle_matrix_fields (w h : ℝ) (r : Rnd) :
    (mkParticle w h VisualStyle.matrix r).x = r.rx * w ∧
    (mkParticle w h VisualStyle.matrix r).vx = 0 ∧
    (mkParticle w h VisualStyle.matrix r).targetX = none ∧
    (mkParticle w h VisualStyle.matrix r).targetY = none := by
  simp [mkParticle, resetVelocity]

theorem updateLinear_x_fixed (w h eff : ℝ) (style : VisualStyle) (p : Particle)
    (hvx : p.vx = 0) (hx0 : -50 ≤ p.x) (hx1 : p.x ≤ w + 50) :
    (updateLinear w h eff style p).x = p.x := by
  show (if (if p.x + p.vx * eff < -50 then w + 50 else p.x + p.vx * eff) > w + 50
      then -50 else (if p.x + p.vx * eff < -50 then w + 50 else p.x + p.vx * eff)) = p.x
  rw [hvx, zero_mul, add_zero, if_neg (not_lt.mpr hx0), if_neg (not_lt.mpr hx1)]

theorem updateLinear_vx (w h eff : ℝ) (style : VisualStyle) (p : Particle) :
    (updateLinear w h eff style p).vx = p.vx := rfl

theorem updateLinear_matrix_y (w h eff : ℝ) (p : Particle) :
    (updateLinear w h eff VisualStyle.matrix p).y =
      if p.y + p.vy * eff > h + 50 then -50 else p.y + p.vy * eff := by
  simp [updateLinear]

theorem initParticles_nil_eq {α : Type} (mk : ℕ → α) (N : ℕ) (hN : 0 < N) :
    initParticles mk [] N = (List.range' 0 N).map mk := by
  have hcond : ([] : List α).length < N := by simpa using hN
  have hlen : ¬ (([] : List α) ++
      (List.range' ([] : List α).length (N - ([] : List α).length)).map mk).length = 0 := by
    simp [List.length_range']
    omega
  simp only [initParticles, if_pos hcond, if_neg hlen]
  simp

theorem mem_initParticles_nil {α : Type} (mk : ℕ → α) (N : ℕ) (q : α)
    (hq : q ∈ initParticles mk [] N) : ∃ i, q = mk i := by
  rcases Nat.eq_zero_or_pos N with h0 | hpos
  · subst h0
    simp [initParticles] at hq
  · rw [initParticles_nil_eq mk N hpos] at hq
    obtain ⟨i, -, rfl⟩ := List.mem_map.mp hq
    exact ⟨i, rfl⟩

theorem tick_matrix_none_x (h speed scale : ℝ) (j : ℝ × ℝ) (p : Particle)
    (hvx : p.vx = 0) (hx0 : -50 ≤ p.x) (hx1 : p.x ≤ 1920 + 50) :
    (tick 1920 h speed scale VisualStyle.matrix none j p).x = p.x := by
  unfold tick
  rw [update_of_targetX_none _ _ _ _ _ _ _ _ (setTarget_none_targetX p),
    if_neg (by decide), if_neg (by decide)]
  exact updateLinear_x_fixed 1920 h (speed * scale) VisualStyle.matrix _ hvx hx0 hx1

theorem matrix_ticks_x (h speed scale : ℝ) (js : ℕ → ℝ × ℝ) :
    ∀ (n : ℕ) (p : Particle), p.vx = 0 → -50 ≤ p.x → p.x ≤ 1920 + 50 →
      (ticks 1920 h speed scale VisualStyle.matrix (fun _ => none) js n p).x = p.x := by
  intro n
  induction n with
  | zero => intros; rfl
  | succ k ih =>
    intro p hvx hx0 hx1
    have htick : (tick 1920 h speed scale VisualStyle.matrix none (js k) p).x = p.x :=
      tick_matrix_none_x h speed scale (js k) p hvx hx0 hx1
    have hvx' : (tick 1920 h speed scale VisualStyle.matrix none (js k) p).vx = 0 := by
      unfold tick
      rw [update_of_targetX_none _ _ _ _ _ _ _ _ (setTarget_none_targetX p),
        if_neg (by decide), if_neg (by decide), updateLinear_vx]
      exact hvx
    calc (ticks 1920 h speed scale VisualStyle.matrix (fun _ => none) js (k + 1) p).x
        = (ticks 1920 h speed scale VisualStyle.matrix (fun _ => none) js k
            (tick 1920 h speed scale VisualStyle.matrix none (js k) p)).x := rfl
      _ = (tick 1920 h speed scale VisualStyle.matrix none (js k) p).x := by
          apply ih _ hvx' <;> rw [htick]
          · exact hx0
          · exact hx1
      _ = p.x := htick

/-- C6: with style matrix at 1920x1080, speed 1 and no morph target,
every particle of the 50-particle system keeps its construction-time x
coordinate over any number of ticks (matrix particles have vx = 0), and
any particle translated below height+50 is wrapped to y = -50 within
that same update. -/
theorem matrix_x_constant (rnd : ℕ → Rnd) (hr : ∀ i, (rnd i).valid)
    (js : ℕ → ℝ × ℝ) (n : ℕ) (q : Particle) (j1 j2 : ℝ)
    (hq : q ∈ initParticles
      (fun i => mkParticle 1920 1080 VisualStyle.matrix (rnd i)) [] 50) :
    (ticks 1920 1080 1 (scaleOf 1920) VisualStyle.matrix (fun _ => none) js n q).x = q.x ∧
    (∀ p : Particle, p.targetX = none →
      p.y + p.vy * (1 * scaleOf 1920) > 1080 + 50 →
      (update 1920 1080 1 (scaleOf 1920) VisualStyle.matrix j1 j2 p).y = -50) := by
  constructor
  · obtain ⟨i, rfl⟩ := mem_initParticles_nil _ 50 q hq
    obtain ⟨hx, hvx, -, -⟩ := mkParticle_matrix_fields 1920 1080 (rnd i)
    obtain ⟨hrx0, hrx1, -⟩ := hr i
    apply matrix_ticks_x 1080 1 (scaleOf 1920) js n _ hvx
    · rw [hx]
      nlinarith
    · rw [hx]
      nlinarith
  · intro p htx hwrap
    rw [update_of_targetX_none _ _ _ _ _ _ _ _ htx, if_neg (by decide),
      if_neg (by decide), updateLinear_matrix_y, if_pos hwrap]

/-- Witness for C6: the concrete matrix particle built from the
all-1/2 random draw keeps its x coordinate over four ticks. -/
theorem matrix_x_constant_witness :
    (ticks 1920 1080 1 (scaleOf 1920) VisualStyle.matrix (fun _ => none)
      (fun _ => (0, 0)) 4
      (mkParticle 1920 1080 VisualStyle.matrix
        ⟨1/2, 1/2, 1/2, 1/2, 1/2, 1/2, 1/2, 1/2, 1/2⟩)).x =
    (mkParticle 1920 1080 VisualStyle.matrix
      ⟨1/2, 1/2, 1/2, 1/2, 1/2, 1/2, 1/2, 1/2, 1/2⟩).x := by
  have hv : ∀ i : ℕ,
      (Rnd.mk (1/2) (1/2) (1/2) (1/2) (1/2) (1/2) (1/2) (1/2) (1/2)).valid := by
    intro i
    unfold Rnd.valid
    norm_num
  have hmem : mkParticle 1920 1080 VisualStyle.matrix
      ⟨1/2, 1/2, 1/2, 1/2, 1/2, 1/2, 1/2, 1/2, 1/2⟩ ∈ initParticles
      (fun i => mkParticle 1920 1080 VisualStyle.matrix
        ((fun _ : ℕ => Rnd.mk (1/2) (1/2) (1/2) (1/2) (1/2) (1/2) (1/2) (1/2) (1/2)) i))
      [] 50 := by
    rw [initParticles_nil_eq _ 50 (by norm_num)]
    exact List.mem_map.mpr ⟨0, by decide, rfl⟩
  exact (matrix_x_constant _ hv (fun _ => (0, 0)) 4 _ 0 0 hmem).1

theorem abs_le_dist (dx dy : ℝ) : |dx| ≤ Real.sqrt (dx * dx + dy * dy) := by
  rw [← Real.sqrt_mul_self_eq_abs]
  exact Real.sqrt_le_sqrt (by nlinarith [mul_self_nonneg dy])

/-- C3: a pair is skipped entirely when the lower-indexed particle is
deeper than 1.8 and the higher-indexed particle's depth is never
consulted; a surviving pair carries an edge exactly when its Euclidean
distance is strictly below the limit; a drawn edge's stroke alpha is
(1 - distance/limit) * 0.25; and the limit is connectionDistance *
scaleRatio, times 0.6 exactly when the morph text is non-empty. -/
theorem connection_pair_rule (a b : Particle) (L connD scale : ℝ) (text : String) :
    (a.z > 1.8 → pairEdge a b L = none) ∧
    (∀ z', pairEdge a { b with z := z' } L = pairEdge a b L) ∧
    (¬ a.z > 1.8 →
      ((∃ o, pairEdge a b L = some o) ↔
        Real.sqrt ((a.x - b.x) * (a.x - b.x) + (a.y - b.y) * (a.y - b.y)) < L)) ∧
    (∀ o, pairEdge a b L = some o →
      strokeAlpha o =
        (1 - Real.sqrt ((a.x - b.x) * (a.x - b.x) + (a.y - b.y) * (a.y - b.y)) / L)
          * 0.25) ∧
    (text = "" → distLimitOf connD scale text = connD * scale) ∧
    (text ≠ "" → distLimitOf connD scale text = connD * scale * 0.6) := by
  refine ⟨?_, ?_, ?_, ?_, ?_, ?_⟩
  · intro hz
    simp only [pairEdge]
    rw [if_pos hz]
  · intro z'
    rfl
  · intro hz
    simp only [pairEdge]
    rw [if_neg hz]
    by_cases hpre : |a.x - b.x| > L ∨ |a.y - b.y| > L
    · rw [if_pos hpre]
      constructor
      · rintro ⟨o, ho⟩
        exact absurd ho (by simp)
      · intro hdist
        exfalso
        rcases hpre with hx | hy
        · have := abs_le_dist (a.x - b.x) (a.y - b.y)
          linarith
        · have := abs_le_dist (a.y - b.y) (a.x - b.x)
          rw [add_comm ((a.y - b.y) * (a.y - b.y))] at this
          linarith
    · rw [if_neg hpre]
      by_cases hd : Real.sqrt ((a.x - b.x) * (a.x - b.x) + (a.y - b.y) * (a.y - b.y)) < L
      · rw [if_pos hd]
        simp [hd]
      · rw [if_neg hd]
        simp [hd]
  · intro o ho
    simp only [pairEdge] at ho
    split_ifs at ho with h1 h2 h3 <;>
      first
        | (rw [Option.some_inj] at ho; rw [← ho]; rfl)
        | exact absurd ho (by simp)
  · intro ht
    simp [distLimitOf, effConnDist, ht]
  · intro ht
    simp [distLimitOf, effConnDist, ht]

/-- Witness for C3: a deep lower-indexed particle (z = 2 > 1.8)
suppresses the edge even at distance 5 against limit 7. -/
theorem connection_pair_rule_witness :
    pairEdge (axisParticle 0 2) (axisParticle 5 1) 7 = none := by
  apply (connection_pair_rule (axisParticle 0 2) (axisParticle 5 1) 7 1 1 "").1
  show (axisParticle 0 2).z > 1.8
  norm_num [axisParticle]

theorem pairEdge_axis_some (d L z0 z1 : ℝ) (hd : 0 ≤ d) (hz : z0 ≤ 1.8)
    (hdL : d < L) :
    pairEdge (axisParticle 0 z0) (axisParticle d z1) L = some (1 - d / L) := by
  have hsqrt : Real.sqrt ((0 - d) * (0 - d) + (0 - 0) * (0 - 0)) = d := by
    rw [show ((0 : ℝ) - d) * (0 - d) + (0 - 0) * (0 - 0) = d * d by ring]
    exact Real.sqrt_mul_self hd
  have hda : |(0 : ℝ) - d| = d := by
    rw [zero_sub, abs_neg, abs_of_nonneg hd]
  simp only [pairEdge, axisParticle]
  rw [if_neg (not_lt.mpr hz)]
  rw [if_neg (by rw [hda]; push_neg; refine ⟨le_of_lt hdL, ?_⟩; simp; linarith)]
  rw [if_pos (by rw [hsqrt]; exact hdL), hsqrt]

theorem pairEdge_axis_none (d L z0 z1 : ℝ) (hd : 0 ≤ d) (hLd : L ≤ d) :
    pairEdge (axisParticle 0 z0) (axisParticle d z1) L = none := by
  have hsqrt : Real.sqrt ((0 - d) * (0 - d) + (0 - 0) * (0 - 0)) = d := by
    rw [show ((0 : ℝ) - d) * (0 - d) + (0 - 0) * (0 - 0) = d * d by ring]
    exact Real.sqrt_mul_self hd
  have hda : |(0 : ℝ) - d| = d := by
    rw [zero_sub, abs_neg, abs_of_nonneg hd]
  by_cases hz : z0 > 1.8
  · simp only [pairEdge, axisParticle]
    rw [if_pos hz]
  · simp only [pairEdge, axisParticle]
    rw [if_neg hz]
    rcases eq_or_lt_of_le hLd with heq | hlt
    · rw [if_neg (by rw [hda]; push_neg; refine ⟨le_of_eq heq.symm, ?_⟩; simp; linarith)]
      rw [if_neg (by rw [hsqrt]; exact not_lt.mpr hLd)]
    · rw [if_pos (Or.inl (by rw [hda]; exact hlt))]

/-- C4 (amended): for particles at (0,0) and (d,0), an edge exists with
opacity 1 - d/limit when d < limit and the lower-indexed particle's
depth is at most 1.8; no edge when d ≥ limit; and no edge whenever the
lower-indexed particle's depth exceeds 1.8 regardless of distance — the
higher-indexed particle's depth z1 is irrelevant throughout. -/
theorem connection_axis_pair (d L z0 z1 : ℝ) (hd : 0 ≤ d) :
    (z0 ≤ 1.8 → d < L →
      pairEdge (axisParticle 0 z0) (axisParticle d z1) L = some (1 - d / L)) ∧
    (L ≤ d → pairEdge (axisParticle 0 z0) (axisParticle d z1) L = none) ∧
    (1.8 < z0 → pairEdge (axisParticle 0 z0) (axisParticle d z1) L = none) := by
  refine ⟨fun hz hdL => pairEdge_axis_some d L z0 z1 hd hz hdL,
    fun hLd => pairEdge_axis_none d L z0 z1 hd hLd, fun hz => ?_⟩
  simp only [pairEdge, axisParticle]
  rw [if_pos hz]

/-- Witness for C4's amended statement at d = 30, limit = 100. -/
theorem connection_axis_pair_witness :
    pairEdge (axisParticle 0 1) (axisParticle 30 1) 100 = some (1 - 30 / 100) :=
  (connection_axis_pair 30 100 1 1 (by norm_num)).1 (by norm_num) (by norm_num)

/-- Counterexample to C4 as stated: the higher-indexed particle has
depth 2 > 1.8, the particles are 50 apart against limit 100, and an
edge is nonetheless produced — only the lower-indexed particle's depth
is tested. -/
theorem connection_either_depth_cex :
    1.8 < (axisParticle 50 2).z ∧
    pairEdge (axisParticle 0 1) (axisParticle 50 2) 100 = some (1 - 50 / 100) := by
  constructor
  · show (1.8 : ℝ) < 2
    norm_num
  · exact pairEdge_axis_some 50 100 1 2 (by norm_num) (by norm_num) (by norm_num)

theorem processText_mem (data : ℕ → ℕ) (scanW gap : ℕ) (scanH outW outH : ℚ)
    (hgap : 0 < gap) (hW : 0 < scanW) (hH : 0 < scanH)
    (hoW : 0 ≤ outW) (hoH : 0 ≤ outH) :
    ∀ p ∈ processTextPoints data scanW scanH gap outW outH,
      0 ≤ p.1 ∧ p.1 ≤ outW ∧ 0 ≤ p.2 ∧ p.2 ≤ outH := by
  intro p hp
  simp only [processTextPoints, List.mem_flatMap, List.mem_filterMap,
    List.mem_range] at hp
  obtain ⟨ky, hky, kx, hkx, hcond⟩ := hp
  split_ifs at hcond with hdata
  · rw [Option.some_inj] at hcond
    have hgq : (0 : ℚ) < (gap : ℚ) := by exact_mod_cast hgap
    have hWq : (0 : ℚ) < (scanW : ℚ) := by exact_mod_cast hW
    have hxlt : ((kx * gap : ℕ) : ℚ) < (scanW : ℚ) := by
      have h1 := Nat.lt_ceil.mp hkx
      have h2 : (kx : ℚ) * (gap : ℚ) < (scanW : ℚ) := (lt_div_iff hgq).mp h1
      push_cast
      linarith
    have hylt : ((ky * gap : ℕ) : ℚ) < scanH := by
      have h1 := Nat.lt_ceil.mp hky
      have h2 : (ky : ℚ) * (gap : ℚ) < scanH := (lt_div_iff hgq).mp h1
      push_cast
      linarith
    have hx1 : ((kx * gap : ℕ) : ℚ) / (scanW : ℚ) ≤ 1 := by
      rw [div_le_one hWq]
      exact le_of_lt hxlt
    have hy1 : ((ky * gap : ℕ) : ℚ) / scanH ≤ 1 := by
      rw [div_le_one hH]
      exact le_of_lt hylt
    rw [← hcond]
    refine ⟨mul_nonneg (div_nonneg (by positivity) (by positivity)) hoW,
      mul_le_of_le_one_left hoW hx1,
      mul_nonneg (div_nonneg (by positivity) (le_of_lt hH)) hoH,
      mul_le_of_le_one_left hoH hy1⟩

theorem processText_nonempty (data : ℕ → ℕ) (scanW gap : ℕ)
    (scanH outW outH : ℚ) (hgap : 0 < gap) (kx ky : ℕ)
    (hx : ((kx * gap : ℕ) : ℚ) < (scanW : ℚ)) (hy : ((ky * gap : ℕ) : ℚ) < scanH)
    (hdata : data ((ky * gap * scanW + kx * gap) * 4 + 3) > 128) :
    processTextPoints data scanW scanH gap outW outH ≠ [] := by
  have hgq : (0 : ℚ) < (gap : ℚ) := by exact_mod_cast hgap
  have hmem : (((kx * gap : ℕ) : ℚ) / (scanW : ℚ) * outW,
      ((ky * gap : ℕ) : ℚ) / scanH * outH)
      ∈ processTextPoints data scanW scanH gap outW outH := by
    simp only [processTextPoints, List.mem_flatMap, List.mem_filterMap, List.mem_range]
    refine ⟨ky, ?_, kx, ?_, ?_⟩
    · apply Nat.lt_ceil.mpr
      rw [lt_div_iff hgq]
      push_cast at hy ⊢
      linarith
    · apply Nat.lt_ceil.mpr
      rw [lt_div_iff hgq]
      push_cast at hx ⊢
      linarith
    · rw [if_pos hdata]
  exact List.ne_nil_of_mem hmem

/-- C8: every point emitted by the scan loop lies inside the output
rectangle [0, outW] x [0, outH] (raster coordinates are mapped linearly
by x/scanW * outW and y/scanH * outH); for the modelled "AB" raster at
1920x1080 (scan canvas 800x450, gap 6) the produced list is non-empty
and also within bounds. -/
theorem sampler_bounds (data : ℕ → ℕ) (scanW gap : ℕ) (scanH outW outH : ℚ)
    (hgap : 0 < gap) (hW : 0 < scanW) (hH : 0 < scanH)
    (hoW : 0 ≤ outW) (hoH : 0 ≤ outH) :
    (∀ p ∈ processTextPoints data scanW scanH gap outW outH,
      0 ≤ p.1 ∧ p.1 ≤ outW ∧ 0 ≤ p.2 ∧ p.2 ≤ outH) ∧
    scanHeightOf 1920 1080 = 450 ∧
    gapFor (fontSizeFor abMeasuredWidth) = 6 ∧
    abPoints ≠ [] ∧
    (∀ p ∈ abPoints, 0 ≤ p.1 ∧ p.1 ≤ 1920 ∧ 0 ≤ p.2 ∧ p.2 ≤ 1080) := by
  have h450 : scanHeightOf 1920 1080 = 450 := by
    norm_num [scanHeightOf, aspectOf, scanWidth]
  have hfloor : Nat.floor ((250 : ℚ) / 40) = 6 := by
    rw [Nat.floor_eq_iff (by norm_num)]
    norm_num
  have h6 : gapFor (fontSizeFor abMeasuredWidth) = 6 := by
    rw [fontSizeFor, abMeasuredWidth, if_neg (by norm_num), gapFor, hfloor]
    exact max_eq_right (by norm_num)
  have habEq : abPoints = processTextPoints abImageData scanWidth 450 6 1920 1080 := by
    rw [abPoints, h450, h6]
  refine ⟨processText_mem data scanW gap scanH outW outH hgap hW hH hoW hoH,
    h450, h6, ?_, ?_⟩
  · rw [habEq]
    apply processText_nonempty abImageData scanWidth 6 450 1920 1080 (by norm_num) 67 37
    · show ((67 * 6 : ℕ) : ℚ) < ((scanWidth : ℕ) : ℚ)
      norm_num [scanWidth]
    · norm_num
    · show abImageData ((37 * 6 * scanWidth + 67 * 6) * 4 + 3) > 128
      norm_num [scanWidth, abImageData]
  · rw [habEq]
    exact processText_mem abImageData scanWidth 6 450 1920 1080 (by norm_num)
      (by norm_num [scanWidth]) (by norm_num) (by norm_num) (by norm_num)

/-- Witness for C8: the modelled "AB" sample list is non-empty. -/
theorem sampler_bounds_witness : abPoints ≠ [] :=
  (sampler_bounds (fun _ => 0) 800 2 450 1920 1080 (by norm_num) (by norm_num)
    (by norm_num) (by norm_num) (by norm_num)).2.2.2.1

theorem update_of_targetY_none (w h speed scale : ℝ) (style : VisualStyle)
    (j1 j2 : ℝ) (p : Particle) (hty : p.targetY = none) :
    update w h speed scale style j1 j2 p =
      (if style = vortex then updateVortex w h (speed * scale) p
       else if style = nova then updateNova w h (speed * scale) j1 j2 p
       else updateLinear w h (speed * scale) style p) := by
  obtain ⟨x, y, z, vx, vy, size, angle, radius, tX, tY⟩ := p
  simp only at hty
  subst hty
  cases tX <;> rfl

theorem updateLinear_zero_eff (w h : ℝ) (style : VisualStyle) (p : Particle)
    (hx0 : -50 ≤ p.x) (hx1 : p.x ≤ w + 50) (hy0 : -50 ≤ p.y) (hy1 : p.y ≤ h + 50) :
    updateLinear w h 0 style p = p := by
  cases style <;>
    simp [updateLinear, not_lt.mpr hx0, not_lt.mpr hx1, not_lt.mpr hy0, not_lt.mpr hy1]

theorem updateNova_zero_eff (w h j1 j2 : ℝ) (p : Particle)
    (hx0 : -100 ≤ p.x) (hx1 : p.x ≤ w + 100) (hy0 : -100 ≤ p.y) (hy1 : p.y ≤ h + 100) :
    (updateNova w h 0 j1 j2 p).x = p.x ∧ (updateNova w h 0 j1 j2 p).y = p.y := by
  simp only [updateNova, mul_zero, add_zero]
  rw [if_neg (by
    simp only [not_or]
    exact ⟨not_lt.mpr hx0, not_lt.mpr hx1, not_lt.mpr hy0, not_lt.mpr hy1⟩)]
  exact ⟨rfl, rfl⟩

/-- C9 (amended): with surface width 0 the scale ratio is 0 and a
particle update leaves the position unchanged for every style and for
morphing particles — provided the particle sits inside the wrap/reset
bounds and, for vortex, its position agrees with its polar state; the
nova centre-distance divisor is guarded and never 0.  (With height 0
but positive width, motion is NOT a no-op; see the counterexample.) -/
theorem zero_width_noop (h speed j1 j2 : ℝ) (style : VisualStyle) (p : Particle)
    (hz : 0 < p.z) (hx0 : -50 ≤ p.x) (hx1 : p.x ≤ 50)
    (hy0 : -50 ≤ p.y) (hy1 : p.y ≤ h + 50)
    (hvtx : style = VisualStyle.vortex →
      p.x = 0 / 2 + Real.cos p.angle * p.radius ∧
      p.y = h / 2 + Real.sin p.angle * p.radius) :
    scaleOf 0 = 0 ∧
    (∀ (q : Particle) (w' h' : ℝ), novaDist q w' h' ≠ 0) ∧
    ((update 0 h speed (scaleOf 0) style j1 j2 p).x = p.x ∧
     (update 0 h speed (scaleOf 0) style j1 j2 p).y = p.y) ∧
    (∀ (q : Particle) (h' tx ty : ℝ),
      (update 0 h' speed (scaleOf 0) style j1 j2
        { q with targetX := some tx, targetY := some ty }).x = q.x ∧
      (update 0 h' speed (scaleOf 0) style j1 j2
        { q with targetX := some tx, targetY := some ty }).y = q.y) := by
  have hsc : scaleOf 0 = 0 := by norm_num [scaleOf]
  have hguard : ∀ (q : Particle) (w' h' : ℝ), novaDist q w' h' ≠ 0 := by
    intro q w' h'
    simp only [novaDist]
    split_ifs with hd
    · norm_num
    · exact hd
  have hmorph : ∀ (q : Particle) (h' tx ty : ℝ),
      (update 0 h' speed (scaleOf 0) style j1 j2
        { q with targetX := some tx, targetY := some ty }).x = q.x ∧
      (update 0 h' speed (scaleOf 0) style j1 j2
        { q with targetX := some tx, targetY := some ty }).y = q.y := by
    intro q h' tx ty
    rw [update_of_targets_some 0 h' speed (scaleOf 0) style j1 j2 tx ty _ rfl rfl]
    rw [hsc]
    constructor <;> simp [updateMorph] <;> ring
  refine ⟨hsc, hguard, ?_, hmorph⟩
  rcases htX : p.targetX with _ | tx
  · rw [update_of_targetX_none 0 h speed (scaleOf 0) style j1 j2 p htX, hsc, mul_zero]
    by_cases hv : style = VisualStyle.vortex
    · rw [if_pos hv]
      obtain ⟨hpx, hpy⟩ := hvtx hv
      constructor
      · show 0 / 2 + Real.cos (p.angle + 0.005 * 0 / p.z) * p.radius = p.x
        rw [hpx]
        norm_num
      · show h / 2 + Real.sin (p.angle + 0.005 * 0 / p.z) * p.radius = p.y
        rw [hpy]
        norm_num
    · rw [if_neg hv]
      by_cases hn : style = VisualStyle.nova
      · rw [if_pos hn]
        exact updateNova_zero_eff 0 h j1 j2 p (by linarith) (by linarith)
          (by linarith) (by linarith)
      · rw [if_neg hn]
        rw [updateLinear_zero_eff 0 h style p hx0 (by linarith) hy0 hy1]
        exact ⟨rfl, rfl⟩
  · rcases htY : p.targetY with _ | ty
    · rw [update_of_targetY_none 0 h speed (scaleOf 0) style j1 j2 p htY, hsc, mul_zero]
      by_cases hv : style = VisualStyle.vortex
      · rw [if_pos hv]
        obtain ⟨hpx, hpy⟩ := hvtx hv
        constructor
        · show 0 / 2 + Real.cos (p.angle + 0.005 * 0 / p.z) * p.radius = p.x
          rw [hpx]
          norm_num
        · show h / 2 + Real.sin (p.angle + 0.005 * 0 / p.z) * p.radius = p.y
          rw [hpy]
          norm_num
      · rw [if_neg hv]
        by_cases hn : style = VisualStyle.nova
        · rw [if_pos hn]
          exact updateNova_zero_eff 0 h j1 j2 p (by linarith) (by linarith)
            (by linarith) (by linarith)
        · rw [if_neg hn]
          rw [updateLinear_zero_eff 0 h style p hx0 (by linarith) hy0 hy1]
          exact ⟨rfl, rfl⟩
    · rw [update_of_targets_some 0 h speed (scaleOf 0) style j1 j2 tx ty p htX htY]
      rw [hsc]
      constructor <;> simp [updateMorph] <;> ring

/-- Witness for C9's amended statement: a zero-width update leaves a
network particle at the origin fixed. -/
theorem zero_width_noop_witness :
    (update 0 100 1 (scaleOf 0) VisualStyle.network 0 0 (axisParticle 0 1)).x
      = (axisParticle 0 1).x :=
  ((zero_width_noop 100 1 0 0 VisualStyle.network (axisParticle 0 1)
    (by norm_num [axisParticle]) (by norm_num [axisParticle])
    (by norm_num [axisParticle]) (by norm_num [axisParticle])
    (by norm_num [axisParticle])
    (fun hv => absurd hv (by decide))).2.2.1).1

/-- Counterexample to C9 as stated: with height 0 but width 1920 the
scale ratio is 1 and a matrix particle still falls — its y moves from 0
to 2 in one update, so a degenerate height does not give no-op motion. -/
theorem degenerate_height_motion_cex :
    cexMatrix.y = 0 ∧
    (update 1920 0 1 (scaleOf 1920) VisualStyle.matrix 0 0 cexMatrix).y = 2 := by
  refine ⟨rfl, ?_⟩
  rw [update_of_targetX_none 1920 0 1 (scaleOf 1920) VisualStyle.matrix 0 0 cexMatrix
    rfl, if_neg (by decide), if_neg (by decide), updateLinear_matrix_y]
  norm_num [cexMatrix, scaleOf]

end Cyberflow
